import Mathlib

/-!
Shallow embedding of `netlify/functions/fetchImages.js` and proofs about it.

The file models the three pipeline stages of the source:
  * `getAllImageUrlsByQuantity` (image resolution with a per-invocation cache),
  * `getOrdersByDate` / `getOrdersByNumberRange` (the order fetcher),
  * `streamZipToBlobStorage` (the archive streamer),
and the relevant branches of the exported `handler`.

Network effects are made explicit: each definition takes an environment
describing the upstream responses, and sequential `await fetch` loops become
structural recursion threading explicit state.
-/

namespace FetchImages

/-- A line item (`order.line_items[j]`).  `product_id` is `none` when the JS
value is absent/null; `some 0` models the JS number `0`, which is also falsy
and therefore skipped by `if (!item.product_id) continue`. -/
structure LineItem where
  product_id : Option Nat
  quantity : Nat
deriving DecidableEq

/-- An order as consumed by the pipeline: its `order_number` (JS number,
modelled as `Int`), creation timestamp in ms UTC, and line items. -/
structure Order where
  order_number : Int
  created_at : Nat
  line_items : List LineItem
deriving DecidableEq

/-! ## Image resolution (`getAllImageUrlsByQuantity`) -/

/-- The outcome of one product-lookup `fetch` in `getAllImageUrlsByQuantity`:
`ok src` models `response.ok` with the parsed payload's `product.image.src`
(`none` when `product`/`product.image`/`product.image.src` is missing),
`httpError` a response with `response.ok` false, `netError` a thrown
exception (caught by the surrounding `try`/`catch`). -/
inductive LookupOutcome where
  | ok (src : Option String)
  | httpError
  | netError
deriving DecidableEq

/-- JS truthiness of `product.image.src`: the guard
`if (product && product.image && product.image.src)` rejects a missing or
empty-string src.  `none` stands for the falsy cases (the `else` branch caches
`null`). -/
def truthySrc : Option String → Option String
  | none => none
  | some s => if s = "" then none else some s

/-- The `productImageCache` `Map`: association list from product id to the
cached value (`some url` positive entry, `none` the negative `null` entry). -/
abbrev Cache := List (Nat × Option String)

/-- `productImageCache.has`/`get` combined: `some v` when the key is present
with value `v`, `none` when absent. -/
def cacheFind : Cache → Nat → Option (Option String)
  | [], _ => none
  | (k, v) :: rest, pid => if k = pid then some v else cacheFind rest pid

/-- `productImageCache.set(pid, v)`: overwrite an existing key, else append. -/
def cacheSet : Cache → Nat → Option String → Cache
  | [], pid, v => [(pid, v)]
  | (k, w) :: rest, pid, v =>
      if k = pid then (pid, v) :: rest else (k, w) :: cacheSet rest pid v

/-- Mutable state threaded through the resolution loop: the cache and the log
of product ids for which the upstream product API was actually fetched, in
order.  The number of fetches performed so far is `fetchLog.length`. -/
structure RState where
  cache : Cache
  fetchLog : List Nat
deriving DecidableEq

/-- How a single line item was handled: skipped (falsy `product_id`),
served from the cache, or resolved through an upstream fetch. -/
inductive StepKind where
  | skipped
  | hit (v : Option String)
  | fetched (o : LookupOutcome)
deriving DecidableEq

/-- `if (imageUrl) { for (let i = 0; i < item.quantity; i++) push(imageUrl) }`:
a truthy url contributes `quantity` copies, a falsy one contributes nothing. -/
def pushQty : Option String → Nat → List String
  | some s, q => List.replicate q s
  | none, _ => []

/-- One iteration of the inner loop of `getAllImageUrlsByQuantity` on `item`.
The environment `env` gives the outcome of the n-th product fetch of the
invocation.  Returns the new state, what happened, and the urls pushed onto
`finalImageUrlList` for this item.  Mirrors the source:
`if (!item.product_id) continue;` then cache lookup, else fetch; on
`response.ok` the cache is set (positive or negative entry), while a non-ok
response or a thrown exception leaves the cache untouched. -/
def resolveItem (env : Nat → LookupOutcome) (st : RState) (item : LineItem) :
    RState × StepKind × List String :=
  match item.product_id with
  | none => (st, .skipped, [])
  | some pid =>
    if pid = 0 then (st, .skipped, [])
    else
      match cacheFind st.cache pid with
      | some v => (st, .hit v, pushQty v item.quantity)
      | none =>
        match env st.fetchLog.length with
        | .ok src =>
            (⟨cacheSet st.cache pid (truthySrc src), st.fetchLog ++ [pid]⟩,
              .fetched (.ok src), pushQty (truthySrc src) item.quantity)
        | .httpError => (⟨st.cache, st.fetchLog ++ [pid]⟩, .fetched .httpError, [])
        | .netError => (⟨st.cache, st.fetchLog ++ [pid]⟩, .fetched .netError, [])

/-- The resolution loop over a flat list of line items, returning the final
state and the per-item trace (item, what happened, urls pushed). -/
def resolveItems (env : Nat → LookupOutcome) :
    List LineItem → RState → RState × List (LineItem × StepKind × List String)
  | [], st => (st, [])
  | item :: rest, st =>
    let step := resolveItem env st item
    let tail := resolveItems env rest step.1
    (tail.1, (item, step.2.1, step.2.2) :: tail.2)

/-- The items visited by the two nested `for` loops, in
(order iteration order, line-item order within order). -/
def allItems (orders : List Order) : List LineItem :=
  (orders.map (fun o => o.line_items)).flatten

/-- `getAllImageUrlsByQuantity(orders, creds)`: the returned
`finalImageUrlList` is the concatenation, in item order, of the urls each
item pushes. -/
def getAllImageUrlsByQuantity (orders : List Order) (env : Nat → LookupOutcome) :
    List String :=
  (((resolveItems env (allItems orders) ⟨[], []⟩).2).map (fun e => e.2.2)).flatten

/-- The url a trace step resolved to, if any: the cached value on a hit, the
truthy src on a successful fetch, nothing otherwise. -/
def resolvedUrl : StepKind → Option String
  | .skipped => none
  | .hit v => v
  | .fetched (.ok src) => truthySrc src
  | .fetched .httpError => none
  | .fetched .netError => none

/-! ## Order fetcher (`getOrdersByDate`, `getOrdersByNumberRange`) -/

/-- A non-success upstream response: its `statusText` and body text. -/
structure ErrInfo where
  statusText : String
  body : String
deriving DecidableEq

/-- The query an orders request carries (`URLSearchParams` of
`getOrdersByDate`): status filter, `created_at_min`/`created_at_max` in ms
since the UTC epoch, and the page-size limit. -/
structure OrdersRequest where
  status : String
  created_at_min : Nat
  created_at_max : Nat
  limit : Nat
deriving DecidableEq

def msPerDay : Nat := 86400000

/-- `startDate.setUTCHours(0, 0, 0, 0)`: the input timestamp floored to its
UTC day boundary. -/
def startOfDay (t : Nat) : Nat := t - t % msPerDay

/-- `endDate.setUTCHours(23, 59, 59, 999)`: last millisecond of the same UTC
day. -/
def endOfDay (t : Nat) : Nat := startOfDay t + (msPerDay - 1)

/-- The single request built by `getOrdersByDate` from the parsed `date`
timestamp `t`: `status: 'open'`, the day window, `limit: '250'`. -/
def dateRequest (t : Nat) : OrdersRequest :=
  { status := "open"
    created_at_min := startOfDay t
    created_at_max := endOfDay t
    limit := 250 }

/-- `getOrdersByDate(date, creds)`.  The environment is the single upstream
response: an error (non-ok response, `throw new Error(...)` with the status
text) or a payload whose `orders` field may be absent (`data.orders || []`).
Returns the list of requests issued together with the result. -/
def getOrdersByDate (t : Nat) (env : Except ErrInfo (Option (List Order))) :
    List OrdersRequest × Except String (List Order) :=
  ([dateRequest t],
    match env with
    | .error e => .error ("Shopify API error: " ++ e.statusText)
    | .ok page => .ok (page.getD []))

/-- One successful response page in range mode: its orders (`data.orders ||
[]`) and whether the `link` header carries a `rel="next"` entry. -/
structure Page where
  orders : List Order
  hasNext : Bool
deriving DecidableEq

/-- `ordersPage[ordersPage.length - 1].order_number`, the number of the last
(oldest, under descending ordering) order of a page; only consulted on
nonempty pages. -/
def lastNum (l : List Order) : Int :=
  match l.getLast? with
  | some o => o.order_number
  | none => 0

/-- The final filter of `getOrdersByNumberRange`:
`allOrders.filter(o => o.order_number >= startNum && o.order_number <= endNum)`. -/
def rangeFilter (startNum endNum : Int) (l : List Order) : List Order :=
  l.filter (fun o => decide (startNum ≤ o.order_number ∧ o.order_number ≤ endNum))

/-- The `while (nextUrl)` loop of `getOrdersByNumberRange`.  The environment
lists the upstream responses in request order; consuming one element is one
request.  `acc` is `allOrders`, `n` the number of requests made so far.  The
`[]` case models exhausting the modelled responses (a well-formed environment
ends with `hasNext = false`, making it unreachable while the loop continues).
On a non-success response the loop throws
`Shopify API error: ${statusText}. Details: ${errorBody}`; on an empty page it
breaks; after appending a page it breaks when the page's last order number is
below `startNum`, and otherwise follows the next link when present.  Every
normal exit returns the accumulator put through `rangeFilter`, paired with the
request count. -/
def goRange (startNum endNum : Int) :
    List (Except ErrInfo Page) → List Order → Nat → Except String (List Order × Nat)
  | [], acc, n => .ok (rangeFilter startNum endNum acc, n)
  | .error e :: _, _, _ =>
      .error ("Shopify API error: " ++ e.statusText ++ ". Details: " ++ e.body)
  | .ok pg :: rest, acc, n =>
      if pg.orders = [] then .ok (rangeFilter startNum endNum acc, n + 1)
      else
        let acc2 := acc ++ pg.orders
        if lastNum pg.orders < startNum then .ok (rangeFilter startNum endNum acc2, n + 1)
        else if pg.hasNext then goRange startNum endNum rest acc2 (n + 1)
        else .ok (rangeFilter startNum endNum acc2, n + 1)

/-- `getOrdersByNumberRange(startNum, endNum, creds)`: run the pagination loop
from an empty accumulator.  On success the result carries the filtered orders
and how many pages were requested. -/
def getOrdersByNumberRange (startNum endNum : Int) (env : List (Except ErrInfo Page)) :
    Except String (List Order × Nat) :=
  goRange startNum endNum env [] 0

/-- All orders of a page sequence, concatenated in traversal order. -/
def joinOrders (pages : List Page) : List Order :=
  (pages.map Page.orders).flatten

/-- Descending `order_number` ordering of a list of orders (the assumption the
early exit relies on). -/
abbrev Descending (l : List Order) : Prop :=
  List.Pairwise (fun a b => b.order_number ≤ a.order_number) l

/-- A well-formed upstream page sequence: every page that is followed by a
further page is nonempty and advertises a next link.  (Pages are reached by
following `rel="next"` cursors, so a page without a successor is exactly one
without a next link.) -/
def wfPages : List Page → Bool
  | [] => true
  | [_] => true
  | p :: q :: rest => (decide (p.orders ≠ []) && p.hasNext) && wfPages (q :: rest)

/-! ## Archive streamer (`streamZipToBlobStorage`) -/

/-- Outcome of one image download `fetch(urls[i])`: a body on `response.ok`,
`httpError` when `response.ok` is false (silently skipped), `netError` a
thrown exception (caught and logged). -/
inductive DlOutcome where
  | ok (body : String)
  | httpError
  | netError
deriving DecidableEq

/-- An archive entry: its name and the appended byte stream (modelled as a
string of bytes). -/
structure Entry where
  name : String
  content : String
deriving DecidableEq

/-- `image-${i + 1}.jpg` for 1-based position `k = i + 1`. -/
def entryName (k : Nat) : String := "image-" ++ toString k ++ ".jpg"

/-- The `for (let i = 0; i < urls.length; i++)` download loop: the environment
gives the outcome of fetching a url at a given index; only an ok response
appends an entry (named by the index in the original list), and both failure
modes leave the archive untouched and continue. -/
def zipEntriesGo (env : Nat → String → DlOutcome) :
    List String → Nat → List Entry
  | [], _ => []
  | u :: rest, i =>
      match env i u with
      | .ok body => ⟨entryName (i + 1), body⟩ :: zipEntriesGo env rest (i + 1)
      | .httpError => zipEntriesGo env rest (i + 1)
      | .netError => zipEntriesGo env rest (i + 1)

/-- `streamZipToBlobStorage(urls, blobConfig)`, observed as the sequence of
entries appended to the archive before `archive.finalize()`. -/
def streamZipToBlobStorage (urls : List String) (env : Nat → String → DlOutcome) :
    List Entry :=
  zipEntriesGo env urls 0

/-- `true` exactly on a successful download. -/
def isOkDl : DlOutcome → Bool
  | .ok _ => true
  | .httpError => false
  | .netError => false

/-- Modelled from the spec (§3 ArchiveEntry, §4.3): the finished archive holds
one entry per url whose download succeeded, named `image-<k>.jpg` with `k` the
url's 1-based position in the original input list, holding the downloaded
bytes; failed downloads contribute nothing.  Stated independently of the
traversal, to be compared with `streamZipToBlobStorage`. -/
def specArchiveEntries (urls : List String) (env : Nat → String → DlOutcome) :
    List Entry :=
  urls.enum.filterMap (fun p =>
    match env p.1 p.2 with
    | .ok body => some ⟨entryName (p.1 + 1), body⟩
    | .httpError => none
    | .netError => none)

/-! ## Handler (`exports.handler`), after the order fetch -/

/-- What the handler's response body and archive activity look like for a
request that passed method/body validation: the HTTP status code, the
`message` string, the optional `downloadUrl`, and whether
`streamZipToBlobStorage` was invoked at all. -/
structure HandlerResult where
  statusCode : Nat
  message : String
  downloadUrl : Option String
  zipInvoked : Bool
deriving DecidableEq

/-- The handler from the point the selected order fetch has produced its
result (`orders = await getOrdersBy...`): a thrown upstream error is caught by
the top-level `catch`; an empty order list and an empty url list each return
a 200 body with only a `message`; otherwise the archive streamer runs and the
body carries the signed `downloadUrl`. -/
def handlerAfterFetch (ordersRes : Except String (List Order))
    (lookupEnv : Nat → LookupOutcome) (signedUrl : String) : HandlerResult :=
  match ordersRes with
  | .error msg => ⟨500, "An internal error occurred: " ++ msg, none, false⟩
  | .ok orders =>
    if orders.isEmpty then
      ⟨200, "No unfulfilled orders found for the selected criteria.", none, false⟩
    else
      let imageUrls := getAllImageUrlsByQuantity orders lookupEnv
      if imageUrls.isEmpty then
        ⟨200, "No product images found in these unfulfilled orders.", none, false⟩
      else
        ⟨200, "Successfully bundled " ++ toString imageUrls.length ++
          " images. Your download is ready.", some signedUrl, true⟩

/-! ## Helper lemmas -/

lemma zipEntriesGo_eq_filterMap (env : Nat → String → DlOutcome) :
    ∀ (l : List String) (i : Nat),
      zipEntriesGo env l i = (List.enumFrom i l).filterMap (fun p =>
        match env p.1 p.2 with
        | .ok body => some ⟨entryName (p.1 + 1), body⟩
        | .httpError => none
        | .netError => none)
  | [], i => by simp [zipEntriesGo]
  | u :: rest, i => by
      rw [List.enumFrom_cons, List.filterMap_cons]
      unfold zipEntriesGo
      cases env i u <;> simp [zipEntriesGo_eq_filterMap env rest (i + 1)]

lemma zipEntriesGo_length (env : Nat → String → DlOutcome) :
    ∀ (l : List String) (i : Nat),
      (zipEntriesGo env l i).length =
        ((List.enumFrom i l).filter (fun p => isOkDl (env p.1 p.2))).length
  | [], i => by simp [zipEntriesGo]
  | u :: rest, i => by
      rw [List.enumFrom_cons, List.filter_cons]
      unfold zipEntriesGo
      cases env i u <;>
        simp [isOkDl, zipEntriesGo_length env rest (i + 1)]

lemma mem_rangeFilter {S E : Int} {l : List Order} {o : Order} :
    o ∈ rangeFilter S E l ↔ o ∈ l ∧ S ≤ o.order_number ∧ o.order_number ≤ E := by
  simp [rangeFilter, List.mem_filter]

lemma goRange_sound (S E : Int) :
    ∀ (env : List (Except ErrInfo Page)) (acc : List Order) (n : Nat)
      (res : List Order × Nat),
      goRange S E env acc n = .ok res →
      ∀ o ∈ res.1, S ≤ o.order_number ∧ o.order_number ≤ E
  | [], acc, n, res, h => by
      simp only [goRange, Except.ok.injEq] at h
      subst h
      exact fun o ho => (mem_rangeFilter.mp ho).2
  | .error e :: rest, acc, n, res, h => by
      simp [goRange] at h
  | .ok pg :: rest, acc, n, res, h => by
      rw [goRange] at h
      split at h
      · simp only [Except.ok.injEq] at h
        subst h
        exact fun o ho => (mem_rangeFilter.mp ho).2
      · split at h
        · simp only [Except.ok.injEq] at h
          subst h
          exact fun o ho => (mem_rangeFilter.mp ho).2
        · split at h
          · exact goRange_sound S E rest _ _ res h
          · simp only [Except.ok.injEq] at h
            subst h
            exact fun o ho => (mem_rangeFilter.mp ho).2

/-! ## Claim theorems -/

/-- Claim C1: for every list of URLs given to the archive streamer, the
finished archive contains exactly one entry for each URL whose download
succeeded and no entry for any URL whose download failed; a failed download
does not abort the run, and every appended entry is named `image-<k>.jpg`
where `k` is the 1-based position of that URL in the original input list, so
names of later successes are not renumbered after an earlier failure.  The
streamed archive coincides with the spec-side description
`specArchiveEntries`, and the entry count equals the number of successful
downloads. -/
theorem archive_entries_exactly_successes (urls : List String)
    (env : Nat → String → DlOutcome) :
    streamZipToBlobStorage urls env = specArchiveEntries urls env ∧
    (streamZipToBlobStorage urls env).length =
      (urls.enum.filter (fun p => isOkDl (env p.1 p.2))).length := by
  constructor
  · rw [streamZipToBlobStorage, specArchiveEntries, List.enum,
      zipEntriesGo_eq_filterMap]
  · rw [streamZipToBlobStorage, List.enum, zipEntriesGo_length]

/-- Claim C3: for every range `[S, E]` and every sequence of upstream pages,
every order in the list returned by the range-mode fetch satisfies
`S ≤ order_number ≤ E`: the accumulated set is filtered to the inclusive
range before being returned. -/
theorem range_filter_sound (S E : Int) (env : List (Except ErrInfo Page))
    (res : List Order × Nat)
    (h : getOrdersByNumberRange S E env = .ok res) :
    ∀ o ∈ res.1, S ≤ o.order_number ∧ o.order_number ≤ E :=
  goRange_sound S E env [] 0 res h

/-- Witness for C3 at a concrete input: a single page holding order number
110, queried with range `[100, 120]`. -/
theorem range_filter_sound_witness :
    (100 : Int) ≤ (110 : Int) ∧ (110 : Int) ≤ (120 : Int) :=
  range_filter_sound 100 120 [.ok ⟨[⟨110, 0, []⟩], false⟩] ([⟨110, 0, []⟩], 1)
    rfl ⟨110, 0, []⟩ (by decide)

/-- Claim C10: a line item whose `product_id` is any falsy value — absent or
the numeric id `0` — is skipped entirely by image resolution: the state (and
with it the cache and the fetch log) is unchanged, so no product lookup
happens and no cache entry is written, and the item contributes no URLs. -/
theorem falsy_product_id_skipped (env : Nat → LookupOutcome) (st : RState)
    (item : LineItem)
    (h : item.product_id = none ∨ item.product_id = some 0) :
    resolveItem env st item = (st, .skipped, []) := by
  rcases h with h | h <;> simp [resolveItem, h]

/-- Witness for C10 at a concrete input: `product_id = 0` with quantity 5 and
an environment whose lookups would all succeed. -/
theorem falsy_product_id_skipped_witness :
    resolveItem (fun _ => .ok (some "u")) ⟨[], []⟩ ⟨some 0, 5⟩ =
      (⟨[], []⟩, .skipped, []) :=
  falsy_product_id_skipped (fun _ => .ok (some "u")) ⟨[], []⟩ ⟨some 0, 5⟩
    (Or.inr rfl)

/-- Claim C7: for every date, the date-mode fetch issues exactly one upstream
request, with `status = open`, `created_at_min` the containing UTC day at
00:00:00.000, `created_at_max` the same day at 23:59:59.999 (the last
millisecond of the day), and page size 250; when the response is successful
it returns exactly that page's orders (the empty list when the payload
carries no orders), and no continuation request is ever issued. -/
theorem date_fetch_single_request (t : Nat)
    (env : Except ErrInfo (Option (List Order))) :
    (∃ r, (getOrdersByDate t env).1 = [r] ∧
      r.status = "open" ∧ r.limit = 250 ∧
      r.created_at_min % msPerDay = 0 ∧
      r.created_at_min ≤ t ∧ t < r.created_at_min + msPerDay ∧
      r.created_at_max = r.created_at_min + (msPerDay - 1)) ∧
    (∀ page, env = .ok page →
      (getOrdersByDate t env).2 = .ok (page.getD [])) := by
  constructor
  · refine ⟨dateRequest t, rfl, rfl, rfl, ?_, ?_, ?_, rfl⟩
    · show (t - t % msPerDay) % msPerDay = 0
      unfold msPerDay
      omega
    · exact Nat.sub_le t (t % msPerDay)
    · show t < t - t % msPerDay + msPerDay
      unfold msPerDay
      omega
  · intro page h
    subst h
    rfl

/-- Witness for C7 at a concrete input: timestamp 86400123 (123 ms into the
second UTC day) with a successful response carrying an empty payload. -/
theorem date_fetch_single_request_witness :
    (getOrdersByDate 86400123 (.ok (some []))).2 = .ok ([] : List Order) :=
  (date_fetch_single_request 86400123 (.ok (some []))).2 (some []) rfl

lemma resolveItem_contribution (env : Nat → LookupOutcome) (st : RState)
    (item : LineItem) :
    (resolveItem env st item).2.2 =
      pushQty (resolvedUrl (resolveItem env st item).2.1) item.quantity := by
  unfold resolveItem
  rcases item.product_id with _ | pid
  · simp [resolvedUrl, pushQty]
  · by_cases h0 : pid = 0
    · simp [h0, resolvedUrl, pushQty]
    · simp only [h0, if_false]
      rcases hc : cacheFind st.cache pid with _ | v
      · rcases henv : env st.fetchLog.length with src | _ | _ <;>
          simp [resolvedUrl, pushQty]
      · simp [resolvedUrl]

lemma resolveItems_trace_contribution (env : Nat → LookupOutcome) :
    ∀ (items : List LineItem) (st : RState)
      (e : LineItem × StepKind × List String),
      e ∈ (resolveItems env items st).2 →
      e.2.2 = pushQty (resolvedUrl e.2.1) e.1.quantity
  | [], st, e, he => by simp [resolveItems] at he
  | item :: rest, st, e, he => by
      rw [resolveItems] at he
      simp only [List.mem_cons] at he
      rcases he with he | he
      · subst he
        exact resolveItem_contribution env st item
      · exact resolveItems_trace_contribution env rest _ e he

lemma resolveItems_map_fst (env : Nat → LookupOutcome) :
    ∀ (items : List LineItem) (st : RState),
      ((resolveItems env items st).2).map (fun e => e.1) = items
  | [], st => rfl
  | item :: rest, st => by
      rw [resolveItems]
      simp [resolveItems_map_fst env rest]

lemma pushQty_length_sum (l : List (LineItem × StepKind × List String)) :
    ((l.map (fun e => pushQty (resolvedUrl e.2.1) e.1.quantity)).map
      List.length).sum =
      ((l.filter (fun e => (resolvedUrl e.2.1).isSome)).map
        (fun e => e.1.quantity)).sum := by
  induction l with
  | nil => rfl
  | cons e rest ih =>
      have hhead : (pushQty (resolvedUrl e.2.1) e.1.quantity).length =
          if (resolvedUrl e.2.1).isSome then e.1.quantity else 0 := by
        rcases resolvedUrl e.2.1 with _ | s <;> simp [pushQty]
      rw [List.map_cons, List.map_cons, List.sum_cons, hhead, List.filter_cons]
      by_cases hs : (resolvedUrl e.2.1).isSome = true
      · rw [if_pos hs, if_pos hs, List.map_cons, List.sum_cons, ih]
      · rw [if_neg hs, if_neg hs, ih, Nat.zero_add]

/-- Claim C5: for every list of orders, the image-URL sequence has length
equal to the sum of `quantity` over the line items whose product resolved to
a (truthy) image URL, and each such line item with quantity `q` contributes
exactly `q` contiguous identical URL entries, placed in (order iteration
order, line-item order within order): the output is the in-order
concatenation of per-item blocks `List.replicate quantity url`. -/
theorem quantity_expansion_shape (orders : List Order)
    (env : Nat → LookupOutcome) :
    getAllImageUrlsByQuantity orders env =
      (((resolveItems env (allItems orders) ⟨[], []⟩).2).map
        (fun e => pushQty (resolvedUrl e.2.1) e.1.quantity)).flatten ∧
    (getAllImageUrlsByQuantity orders env).length =
      ((((resolveItems env (allItems orders) ⟨[], []⟩).2).filter
        (fun e => (resolvedUrl e.2.1).isSome)).map
        (fun e => e.1.quantity)).sum := by
  have hmap : ((resolveItems env (allItems orders) ⟨[], []⟩).2).map
      (fun e => e.2.2) =
      ((resolveItems env (allItems orders) ⟨[], []⟩).2).map
      (fun e => pushQty (resolvedUrl e.2.1) e.1.quantity) :=
    List.map_congr_left
      (fun e he => resolveItems_trace_contribution env (allItems orders) _ e he)
  constructor
  · rw [getAllImageUrlsByQuantity, hmap]
  · rw [getAllImageUrlsByQuantity, hmap, List.length_flatten, List.map_map,
      Function.comp_def]
    have := pushQty_length_sum ((resolveItems env (allItems orders) ⟨[], []⟩).2)
    simpa using this

/-- Claim C9: a failure of a single line item's product lookup (non-success
response or I/O error) does not abort resolution: every line item is
processed (the trace covers `allItems orders` in order), the call returns the
concatenation of the per-item contributions (so all other items' URLs are
present), and a line item whose lookup failed contributes the empty block. -/
theorem item_failure_nonfatal (orders : List Order)
    (env : Nat → LookupOutcome) :
    ((resolveItems env (allItems orders) ⟨[], []⟩).2).map (fun e => e.1) =
      allItems orders ∧
    getAllImageUrlsByQuantity orders env =
      (((resolveItems env (allItems orders) ⟨[], []⟩).2).map
        (fun e => e.2.2)).flatten ∧
    ∀ e ∈ (resolveItems env (allItems orders) ⟨[], []⟩).2,
      (e.2.1 = .fetched .httpError ∨ e.2.1 = .fetched .netError) →
      e.2.2 = [] := by
  refine ⟨resolveItems_map_fst env (allItems orders) ⟨[], []⟩, rfl, ?_⟩
  intro e he hf
  rw [resolveItems_trace_contribution env (allItems orders) ⟨[], []⟩ e he]
  rcases hf with hf | hf <;> rw [hf] <;> rfl

/-- Witness for C9 at a concrete input: one order with a single line item of
quantity 2 whose lookup returns a non-success response; the trace covers the
item and the failing item contributes nothing. -/
theorem item_failure_nonfatal_witness :
    ((resolveItems (fun _ => .httpError)
        (allItems [⟨1, 0, [⟨some 1, 2⟩]⟩]) ⟨[], []⟩).2).map (fun e => e.1) =
      allItems [⟨1, 0, [⟨some 1, 2⟩]⟩] ∧
    ((⟨some 1, 2⟩, .fetched .httpError, []) :
        LineItem × StepKind × List String).2.2 = [] :=
  ⟨(item_failure_nonfatal [⟨1, 0, [⟨some 1, 2⟩]⟩] (fun _ => .httpError)).1,
    (item_failure_nonfatal [⟨1, 0, [⟨some 1, 2⟩]⟩] (fun _ => .httpError)).2.2
      (⟨some 1, 2⟩, .fetched .httpError, []) (by decide) (Or.inl rfl)⟩

/-- Counterexample to claim C4 as stated: with two line items referencing
product 1 and an upstream whose product lookup returns a non-success
response, the lookup API is invoked twice for product 1 within one
invocation — the code writes no cache entry on a non-success response, so
"at most once regardless of a non-success response" is false. -/
theorem product_cache_cex :
    ((resolveItems (fun _ => .httpError)
        (allItems [⟨1, 0, [⟨some 1, 1⟩, ⟨some 1, 1⟩]⟩]) ⟨[], []⟩).1.fetchLog).count 1 = 2 ∧
    ¬ ((resolveItems (fun _ => .httpError)
        (allItems [⟨1, 0, [⟨some 1, 1⟩, ⟨some 1, 1⟩]⟩]) ⟨[], []⟩).1.fetchLog).count 1 ≤ 1 := by
  decide

lemma cacheFind_cacheSet :
    ∀ (c : Cache) (pid : Nat) (v : Option String) (q : Nat),
      cacheFind (cacheSet c pid v) q =
        if pid = q then some v else cacheFind c q
  | [], pid, v, q => by
      by_cases h : pid = q <;> simp [cacheSet, cacheFind, h]
  | (k, w) :: rest, pid, v, q => by
      rw [cacheSet]
      by_cases hk : k = pid
      · by_cases hq : pid = q
        · simp [cacheFind, hk, hq]
        · have hkq : ¬ k = q := by omega
          simp [cacheFind, hk, hq, hkq]
      · by_cases hq : k = q
        · have hpq : ¬ pid = q := by omega
          have hqp : ¬ q = pid := by omega
          simp [cacheFind, hk, hq, hpq, hqp]
        · simp [cacheFind, hk, hq, cacheFind_cacheSet rest pid v q]

/-- All lookups in the environment return a success response (with or without
an image in the payload). -/
def envAllOk (env : Nat → LookupOutcome) : Prop :=
  ∀ n, ∃ src, env n = .ok src

lemma resolveItems_fetchLog_nodup (env : Nat → LookupOutcome)
    (henv : envAllOk env) :
    ∀ (items : List LineItem) (st : RState),
      st.fetchLog.Nodup →
      (∀ q ∈ st.fetchLog, (cacheFind st.cache q).isSome) →
      (resolveItems env items st).1.fetchLog.Nodup
  | [], st, hnd, hinv => hnd
  | item :: rest, st, hnd, hinv => by
      rw [resolveItems]
      rcases hpid : item.product_id with _ | pid
      · exact resolveItems_fetchLog_nodup env henv rest _
          (by simpa [resolveItem, hpid] using hnd)
          (by simpa [resolveItem, hpid] using hinv)
      · by_cases h0 : pid = 0
        · exact resolveItems_fetchLog_nodup env henv rest _
            (by simpa [resolveItem, hpid, h0] using hnd)
            (by simpa [resolveItem, hpid, h0] using hinv)
        · rcases hc : cacheFind st.cache pid with _ | v
          · obtain ⟨src, hsrc⟩ := henv st.fetchLog.length
            have hstep : (resolveItem env st item).1 =
                ⟨cacheSet st.cache pid (truthySrc src), st.fetchLog ++ [pid]⟩ := by
              simp [resolveItem, hpid, h0, hc, hsrc]
            have hnotmem : pid ∉ st.fetchLog := by
              intro hmem
              have := hinv pid hmem
              rw [hc] at this
              simp at this
            refine resolveItems_fetchLog_nodup env henv rest _ ?_ ?_
            · rw [hstep]
              simpa [List.nodup_append] using ⟨hnd, hnotmem⟩
            · rw [hstep]
              intro q hq
              simp only [List.mem_append, List.mem_singleton] at hq
              rw [cacheFind_cacheSet]
              rcases hq with hq | hq
              · by_cases hpq : pid = q
                · simp [hpq]
                · simpa [hpq] using hinv q hq
              · simp [hq]
          · exact resolveItems_fetchLog_nodup env henv rest _
              (by simpa [resolveItem, hpid, h0, hc] using hnd)
              (by simpa [resolveItem, hpid, h0, hc] using hinv)

/-- Claim C4, amended: within a single invocation of image resolution, for
every list of orders in which several line items reference the same
`product_id`, the upstream product-lookup API is invoked at most once for
that `product_id`, provided every performed lookup returns a success response
(with or without an image in the payload).  Without that proviso the claim
fails (`product_cache_cex`): a non-success response or I/O error writes no
cache entry, so a later line item with the same id triggers another lookup. -/
theorem product_cache_at_most_once_amended (orders : List Order)
    (env : Nat → LookupOutcome) (henv : envAllOk env) (pid : Nat) :
    ((resolveItems env (allItems orders) ⟨[], []⟩).1.fetchLog).count pid ≤ 1 :=
  List.nodup_iff_count_le_one.mp
    (resolveItems_fetchLog_nodup env henv (allItems orders) ⟨[], []⟩
      List.nodup_nil (by intro q hq; simp at hq)) pid

/-- Witness for the amended C4 at a concrete input: two line items for
product 1, every lookup succeeding with image url `u`. -/
theorem product_cache_at_most_once_amended_witness :
    ((resolveItems (fun _ => .ok (some "u"))
        (allItems [⟨1, 0, [⟨some 1, 1⟩, ⟨some 1, 1⟩]⟩]) ⟨[], []⟩).1.fetchLog).count 1 ≤ 1 :=
  product_cache_at_most_once_amended [⟨1, 0, [⟨some 1, 1⟩, ⟨some 1, 1⟩]⟩]
    (fun _ => .ok (some "u")) (fun _ => ⟨some "u", rfl⟩) 1

/-- Claim C8: whenever the order fetch succeeds with zero matching orders, or
image resolution yields zero URLs, the handler returns a 200 response whose
body carries a non-empty message and no `downloadUrl`, and the archive
streamer is never invoked. -/
theorem empty_result_no_archive (ordersRes : Except String (List Order))
    (lookupEnv : Nat → LookupOutcome) (signedUrl : String)
    (orders : List Order) (h : ordersRes = .ok orders)
    (hemp : orders = [] ∨ getAllImageUrlsByQuantity orders lookupEnv = []) :
    (handlerAfterFetch ordersRes lookupEnv signedUrl).statusCode = 200 ∧
    (handlerAfterFetch ordersRes lookupEnv signedUrl).message ≠ "" ∧
    (handlerAfterFetch ordersRes lookupEnv signedUrl).downloadUrl = none ∧
    (handlerAfterFetch ordersRes lookupEnv signedUrl).zipInvoked = false := by
  subst h
  by_cases ho : orders.isEmpty
  · refine ⟨?_, ?_, ?_, ?_⟩ <;> simp [handlerAfterFetch, ho]
  · have hurls : getAllImageUrlsByQuantity orders lookupEnv = [] := by
      rcases hemp with hemp | hemp
      · exact absurd (by simp [hemp]) ho
      · exact hemp
    refine ⟨?_, ?_, ?_, ?_⟩ <;> simp [handlerAfterFetch, ho, hurls]

/-- Witness for C8 at a concrete input: the order fetch succeeded with zero
orders. -/
theorem empty_result_no_archive_witness :
    (handlerAfterFetch (.ok []) (fun _ => .ok none) "url").statusCode = 200 ∧
    (handlerAfterFetch (.ok []) (fun _ => .ok none) "url").message ≠ "" ∧
    (handlerAfterFetch (.ok []) (fun _ => .ok none) "url").downloadUrl = none ∧
    (handlerAfterFetch (.ok []) (fun _ => .ok none) "url").zipInvoked = false :=
  empty_result_no_archive (.ok []) (fun _ => .ok none) "url" [] rfl (Or.inl rfl)

lemma goRange_error (S E : Int) (e : ErrInfo) :
    ∀ (pfx : List Page) (rest : List (Except ErrInfo Page)) (acc : List Order)
      (n : Nat),
      (∀ q ∈ pfx, q.orders ≠ [] ∧ S ≤ lastNum q.orders ∧ q.hasNext = true) →
      goRange S E (pfx.map .ok ++ .error e :: rest) acc n =
        .error ("Shopify API error: " ++ e.statusText ++ ". Details: " ++ e.body)
  | [], rest, acc, n, _ => by simp [goRange]
  | q :: pfx, rest, acc, n, h => by
      obtain ⟨hne, hge, hnext⟩ := h q (List.mem_cons_self q pfx)
      have hlt : ¬ lastNum q.orders < S := not_lt.mpr hge
      rw [List.map_cons, List.cons_append]
      simp only [goRange, hne, hlt, hnext, if_false, if_true, ite_false,
        ite_true]
      exact goRange_error S E e pfx rest (acc ++ q.orders) (n + 1)
        (fun r hr => h r (List.mem_cons_of_mem q hr))

/-- Claim C6: for both fetch modes, a non-success response while fetching an
order page aborts the entire fetch by raising an error carrying the upstream
status text — and for range mode additionally the response body text — and no
partial order list is returned (any pages accumulated before the failure are
discarded, the result being the error alone). -/
theorem upstream_error_aborts :
    (∀ (t : Nat) (e : ErrInfo),
      (getOrdersByDate t (.error e)).2 =
        .error ("Shopify API error: " ++ e.statusText)) ∧
    (∀ (S E : Int) (e : ErrInfo) (pfx : List Page)
      (rest : List (Except ErrInfo Page)),
      (∀ q ∈ pfx, q.orders ≠ [] ∧ S ≤ lastNum q.orders ∧ q.hasNext = true) →
      getOrdersByNumberRange S E (pfx.map .ok ++ .error e :: rest) =
        .error ("Shopify API error: " ++ e.statusText ++ ". Details: " ++ e.body)) :=
  ⟨fun _ _ => rfl,
   fun S E e pfx rest h => goRange_error S E e pfx rest [] 0 h⟩

/-- Witness for C6 at concrete inputs: a failing date-mode response, and a
range-mode traversal that fails on its second page after accumulating a full
first page. -/
theorem upstream_error_aborts_witness :
    (getOrdersByDate 0 (.error ⟨"Unauthorized", "denied"⟩)).2 =
      .error ("Shopify API error: " ++ "Unauthorized") ∧
    getOrdersByNumberRange 100 120
        (([⟨[⟨200, 0, []⟩], true⟩] : List Page).map .ok ++
          .error ⟨"Too Many Requests", "throttled"⟩ :: []) =
      .error ("Shopify API error: " ++ "Too Many Requests" ++ ". Details: " ++
        "throttled") :=
  ⟨upstream_error_aborts.1 0 ⟨"Unauthorized", "denied"⟩,
   upstream_error_aborts.2 100 120 ⟨"Too Many Requests", "throttled"⟩
     [⟨[⟨200, 0, []⟩], true⟩] [] (by decide)⟩

lemma wfPages_tail : ∀ {p : Page} {rest : List Page},
    wfPages (p :: rest) = true → wfPages rest = true
  | _, [], _ => rfl
  | _, _ :: _, h => by
      rw [wfPages, Bool.and_eq_true] at h
      exact h.2

lemma wfPages_head : ∀ {p q : Page} {rest : List Page},
    wfPages (p :: q :: rest) = true → p.orders ≠ [] ∧ p.hasNext = true
  | p, q, rest, h => by
      rw [wfPages, Bool.and_eq_true, Bool.and_eq_true] at h
      exact ⟨by simpa using h.1.1, h.1.2⟩

lemma goRange_complete (S E : Int) :
    ∀ (pages : List Page) (acc : List Order) (n : Nat),
      Descending (joinOrders pages) → wfPages pages = true →
      ∃ res, goRange S E (pages.map .ok) acc n = .ok res ∧
        ∀ o, (o ∈ acc ∨ o ∈ joinOrders pages) →
          S ≤ o.order_number → o.order_number ≤ E → o ∈ res.1
  | [], acc, n, _, _ =>
      ⟨(rangeFilter S E acc, n), rfl, fun o ho h1 h2 =>
        mem_rangeFilter.mpr
          ⟨ho.resolve_right (by simp [joinOrders]), h1, h2⟩⟩
  | pg :: rest, acc, n, hdesc, hwf => by
      have hjoin : joinOrders (pg :: rest) = pg.orders ++ joinOrders rest := by
        simp [joinOrders]
      by_cases hemp : pg.orders = []
      · have hrest : rest = [] := by
          cases rest with
          | nil => rfl
          | cons r rest2 => exact absurd hemp (wfPages_head hwf).1
        refine ⟨(rangeFilter S E acc, n + 1), by simp [goRange, hemp], ?_⟩
        intro o ho h1 h2
        apply mem_rangeFilter.mpr
        refine ⟨?_, h1, h2⟩
        rcases ho with ho | ho
        · exact ho
        · rw [hjoin, hemp, hrest] at ho
          simp [joinOrders] at ho
      · by_cases hlast : lastNum pg.orders < S
        · refine ⟨(rangeFilter S E (acc ++ pg.orders), n + 1),
            by simp [goRange, hemp, hlast], ?_⟩
          intro o ho h1 h2
          apply mem_rangeFilter.mpr
          refine ⟨?_, h1, h2⟩
          rcases ho with ho | ho
          · exact List.mem_append.mpr (Or.inl ho)
          · rw [hjoin] at ho
            rcases List.mem_append.mp ho with ho | ho
            · exact List.mem_append.mpr (Or.inr ho)
            · exfalso
              have hdesc2 : Descending (pg.orders ++ joinOrders rest) := by
                rwa [hjoin] at hdesc
              have hpair := (List.pairwise_append.mp hdesc2).2.2
              have hle : o.order_number ≤ (pg.orders.getLast hemp).order_number :=
                hpair _ (List.getLast_mem hemp) o ho
              have hlnum : lastNum pg.orders =
                  (pg.orders.getLast hemp).order_number := by
                simp [lastNum, List.getLast?_eq_getLast pg.orders hemp]
              omega
        · by_cases hnext : pg.hasNext = true
          · obtain ⟨res, hres, hmem⟩ := goRange_complete S E rest
              (acc ++ pg.orders) (n + 1)
              ((List.pairwise_append.mp (hjoin ▸ hdesc)).2.1) (wfPages_tail hwf)
            refine ⟨res, by simp [goRange, hemp, hlast, hnext, hres], ?_⟩
            intro o ho h1 h2
            apply hmem o _ h1 h2
            rcases ho with ho | ho
            · exact Or.inl (List.mem_append.mpr (Or.inl ho))
            · rw [hjoin] at ho
              rcases List.mem_append.mp ho with ho | ho
              · exact Or.inl (List.mem_append.mpr (Or.inr ho))
              · exact Or.inr ho
          · have hrest : rest = [] := by
              cases rest with
              | nil => rfl
              | cons r rest2 => exact absurd (wfPages_head hwf).2 hnext
            refine ⟨(rangeFilter S E (acc ++ pg.orders), n + 1),
              by simp [goRange, hemp, hlast, hnext], ?_⟩
            intro o ho h1 h2
            apply mem_rangeFilter.mpr
            refine ⟨?_, h1, h2⟩
            rcases ho with ho | ho
            · exact List.mem_append.mpr (Or.inl ho)
            · rw [hjoin, hrest] at ho
              simp only [joinOrders, List.map_nil, List.flatten_nil,
                List.append_nil] at ho
              exact List.mem_append.mpr (Or.inr ho)

lemma goRange_stop (S E : Int) (p : Page)
    (hstop : p.orders = [] ∨ lastNum p.orders < S) :
    ∀ (pfx : List Page) (rest : List Page) (acc : List Order) (n : Nat),
      (∀ q ∈ pfx, q.orders ≠ [] ∧ S ≤ lastNum q.orders ∧ q.hasNext = true) →
      ∃ res, goRange S E ((pfx ++ p :: rest).map .ok) acc n = .ok res ∧
        res.2 = n + pfx.length + 1
  | [], rest, acc, n, _ => by
      by_cases hemp : p.orders = []
      · exact ⟨(rangeFilter S E acc, n + 1), by simp [goRange, hemp], by simp⟩
      · have hlast : lastNum p.orders < S := hstop.resolve_left hemp
        exact ⟨(rangeFilter S E (acc ++ p.orders), n + 1),
          by simp [goRange, hemp, hlast], by simp⟩
  | q :: pfx, rest, acc, n, h => by
      obtain ⟨hne, hge, hnext⟩ := h q (List.mem_cons_self q pfx)
      have hlt : ¬ lastNum q.orders < S := not_lt.mpr hge
      obtain ⟨res, hres, hcount⟩ := goRange_stop S E p hstop pfx rest
        (acc ++ q.orders) (n + 1) (fun r hr => h r (List.mem_cons_of_mem q hr))
      have hres2 : goRange S E
          (List.map Except.ok pfx ++ Except.ok p :: List.map Except.ok rest)
          (acc ++ q.orders) (n + 1) = Except.ok res := by
        simpa [List.map_append] using hres
      refine ⟨res, by simp [goRange, hne, hlt, hnext, hres2], ?_⟩
      rw [List.length_cons]
      omega

/-- Claim C2, amended: for every range `[S, E]` with `S ≤ E`, assuming the
upstream pages — linked each to the next by a `rel="next"` cursor and
concatenated in traversal order — list the open orders in descending
`order_number` order, and additionally that no empty page is followed by a
further page, the range-mode fetch returns all open orders with
`order_number` in `[S, E]`; traversal stops after a page whose order list is
empty, or whose last order has `order_number < S`, and requests no further
page after stopping.  Without the added nonemptiness proviso the original
claim fails (`range_completeness_cex`): the loop breaks at an empty page even
when later pages still hold in-range orders. -/
theorem range_fetch_complete_amended (S E : Int) (pages : List Page) :
    (S ≤ E → Descending (joinOrders pages) → wfPages pages = true →
      ∃ res, getOrdersByNumberRange S E (pages.map .ok) = .ok res ∧
        ∀ o ∈ joinOrders pages, S ≤ o.order_number → o.order_number ≤ E →
          o ∈ res.1) ∧
    (∀ (pfx : List Page) (p : Page) (rest : List Page),
      pages = pfx ++ p :: rest →
      (∀ q ∈ pfx, q.orders ≠ [] ∧ S ≤ lastNum q.orders ∧ q.hasNext = true) →
      (p.orders = [] ∨ lastNum p.orders < S) →
      ∃ res, getOrdersByNumberRange S E (pages.map .ok) = .ok res ∧
        res.2 = pfx.length + 1) := by
  constructor
  · intro _ hdesc hwf
    obtain ⟨res, hres, hmem⟩ := goRange_complete S E pages [] 0 hdesc hwf
    exact ⟨res, hres, fun o ho h1 h2 => hmem o (Or.inr ho) h1 h2⟩
  · intro pfx p rest hp hcont hstop
    subst hp
    obtain ⟨res, hres, hcount⟩ := goRange_stop S E p hstop pfx rest [] 0 hcont
    exact ⟨res, hres, by omega⟩

/-- Counterexample to claim C2 as stated: with `S = 100 ≤ E = 120`, an empty
first page followed by a page holding the open order numbered 110 — a page
sequence whose concatenation is (vacuously) in descending order — the fetch
stops at the empty page after a single request and returns the empty list,
omitting the in-range order 110. -/
theorem range_completeness_cex :
    ((100 : Int) ≤ (120 : Int) ∧
      Descending (joinOrders [⟨[], true⟩, ⟨[⟨110, 0, []⟩], false⟩]) ∧
      (⟨110, 0, []⟩ : Order) ∈
        joinOrders [⟨[], true⟩, ⟨[⟨110, 0, []⟩], false⟩] ∧
      (100 : Int) ≤ (110 : Int) ∧ (110 : Int) ≤ (120 : Int)) ∧
    getOrdersByNumberRange 100 120
        (([⟨[], true⟩, ⟨[⟨110, 0, []⟩], false⟩] : List Page).map .ok) =
      .ok ([], 1) :=
  ⟨by decide, rfl⟩

/-- Witness for the amended C2 at a concrete input: open orders 150, 110, 90
split across two linked pages, range `[100, 120]`: order 110 is returned, and
traversal stops after the second page (two requests) whose last order 90 is
below the range. -/
theorem range_fetch_complete_amended_witness :
    (∃ res, getOrdersByNumberRange 100 120
        (([⟨[⟨150, 0, []⟩, ⟨110, 0, []⟩], true⟩,
           ⟨[⟨90, 0, []⟩], false⟩] : List Page).map .ok) = .ok res ∧
      (⟨110, 0, []⟩ : Order) ∈ res.1) ∧
    (∃ res, getOrdersByNumberRange 100 120
        (([⟨[⟨150, 0, []⟩, ⟨110, 0, []⟩], true⟩,
           ⟨[⟨90, 0, []⟩], false⟩] : List Page).map .ok) = .ok res ∧
      res.2 = 2) := by
  constructor
  · obtain ⟨res, hres, hmem⟩ :=
      (range_fetch_complete_amended 100 120
        [⟨[⟨150, 0, []⟩, ⟨110, 0, []⟩], true⟩, ⟨[⟨90, 0, []⟩], false⟩]).1
        (by decide) (by decide) (by decide)
    exact ⟨res, hres, hmem ⟨110, 0, []⟩ (by decide) (by decide) (by decide)⟩
  · obtain ⟨res, hres, hcount⟩ :=
      (range_fetch_complete_amended 100 120
        [⟨[⟨150, 0, []⟩, ⟨110, 0, []⟩], true⟩, ⟨[⟨90, 0, []⟩], false⟩]).2
        [⟨[⟨150, 0, []⟩, ⟨110, 0, []⟩], true⟩] ⟨[⟨90, 0, []⟩], false⟩ [] rfl
        (by decide) (by decide)
    exact ⟨res, hres, by simpa using hcount⟩

end FetchImages
